import Mathlib

/-!
Verification of the fitamord relational merge-collect core against its
natural-language specification.

The definitions below are a shallow embedding of the Python sources
`fitamord/collections.py`, `fitamord/records.py` and
`fitamord/relational.py`.  Python exceptions are modelled by an explicit
error type; raising is modelled by returning the error (paired with the
unchanged receiver state where the source checks before mutating).
Python `None` is modelled by `Option.none`.  Record key values live in a
linearly ordered type `K`; a key cell is `Option K` (`none` is a null
key).  Lazy iterators over finite data are modelled by lists.
-/

/-- Exceptions that the modelled code can raise.  `valueError`,
`keyError`, `indexError`, `typeError` and `attributeError` model the
Python built-in exception classes of the same names.  `schemaError`
models the `SchemaError` class named by the specification; the source
defines no such class and never raises it, it is included only so that
statements about the specification claim can be expressed. -/
inductive Err where
  | valueError (msg : String)
  | keyError
  | indexError
  | typeError
  | attributeError
  | schemaError (msg : String)
deriving DecidableEq

/-- Whether an error is the Python `ValueError` class. -/
def Err.isValueError : Err → Bool
  | .valueError _ => true
  | _ => false

/-- Whether an error is the specification class `SchemaError` (never
produced by the source). -/
def Err.isSchemaError : Err → Bool
  | .schemaError _ => true
  | _ => false

/-- `collections.NamedItems`: an ordered collection of items accessible
by name or index.  The dict `_names2idxs` always has exactly the
elements of `_names` as keys (every mutation appends to both), so it is
represented by the `names` list alone. -/
structure NamedItems (α : Type) where
  names : List String
  items : List α
deriving DecidableEq

/-- A fresh `NamedItems()` (the zero-argument constructor). -/
def NamedItems.empty {α : Type} : NamedItems α := ⟨[], []⟩

/-- `NamedItems.add(name, item)`: raises `ValueError` on a duplicate
name, otherwise appends to `_names` and `_items`.  The source checks the
duplicate before mutating anything, so on error the collection is
returned unchanged. -/
def NamedItems.add {α : Type} (c : NamedItems α) (n : String) (x : α) :
    NamedItems α × Option Err :=
  if n ∈ c.names then
    (c, some (Err.valueError ("Duplicate name: " ++ n)))
  else
    (⟨c.names ++ [n], c.items ++ [x]⟩, none)

/-- `records.PyField`: a (name, type) pair.  The type is kept as an opaque
tag string; the claims under verification only examine names. -/
structure PyField where
  name : String
  ty : String
deriving DecidableEq

/-- `records.Header`: an ordered collection of fields.  The dict
`_names2idxs` maps each field name to its position and is derived from
`fields`. -/
structure Header where
  fields : List PyField
deriving DecidableEq

/-- The field names of a header, in order. -/
def Header.names (h : Header) : List String := h.fields.map PyField.name

/-- The loop body of `Header.__init__` over the normalized field
definitions: each field is rejected with `ValueError` if its name is
already present, otherwise appended. -/
def mkHeaderAux (acc : List PyField) : List PyField → Except Err (List PyField)
  | [] => Except.ok acc
  | f :: rest =>
      if f.name ∈ acc.map PyField.name then
        Except.error (Err.valueError ("Duplicate field name: " ++ f.name))
      else
        mkHeaderAux (acc ++ [f]) rest

/-- `Header.__init__` on an iterable of field definitions: processes the
definitions in order (rejecting duplicate names with `ValueError`), then
raises `ValueError` if no field was specified. -/
def mkHeader (defs : List PyField) : Except Err Header :=
  match mkHeaderAux [] defs with
  | Except.error e => Except.error e
  | Except.ok fs =>
      if fs.isEmpty then
        Except.error (Err.valueError "No fields were specified")
      else
        Except.ok ⟨fs⟩

/-- A Python value used as a column key: either a name (str) or an index
(int).  The `MergeCollect` docstring admits exactly these two shapes. -/
inductive PyKey where
  | name (s : String)
  | idx (n : Nat)
deriving DecidableEq

/-- Python equality between a key object and a string: an int never
equals a str, so only the `name` shape can match.  This is the equality
used by the `_names2idxs` dict lookup. -/
def pyKeyEqStr : PyKey → String → Bool
  | .name s, t => s = t
  | .idx _, _ => false

/-- `Header.index_of(name)`: the dict lookup `self._names2idxs[name]`.
Its keys are the (string) field names, so a missing name or an int
argument raises `KeyError`. -/
def Header.indexOfKey (h : Header) (k : PyKey) : Except Err Nat :=
  match h.names.findIdx? (fun s => pyKeyEqStr k s) with
  | some i => Except.ok i
  | none => Except.error Err.keyError

/-- `Header.__contains__` restricted to the str and int branches (the
only shapes a `PyKey` can take): a str is looked up among the names, an
int `n` is contained iff `0 <= n < len(self)`. -/
def Header.containsKey (h : Header) (k : PyKey) : Bool :=
  match k with
  | .name s => s ∈ h.names
  | .idx n => n < h.fields.length

/-- `records.RecordStream`: a named, header-bearing sequence of records.
`provenance`, `error_handler` and `is_reiterable` play no role in the
claims under verification and are omitted. -/
structure RecordStream (ρ : Type) where
  name : Option String
  header : Option Header
  records : List ρ
deriving DecidableEq

/-- `RecordStream.has_name`. -/
def RecordStream.hasName {ρ : Type} (rs : RecordStream ρ) : Bool :=
  rs.name.isSome

/-- `RecordStream.has_header`. -/
def RecordStream.hasHeader {ρ : Type} (rs : RecordStream ρ) : Bool :=
  rs.header.isSome

/-- The `RecordStream.name` property: the stored name, or the
placeholder string when unset. -/
def RecordStream.nameProp {ρ : Type} (rs : RecordStream ρ) : String :=
  rs.name.getD "<unknown>"

/-- One pull on an underlying record iterator: it either produces a
record or raises an exception.  Exhaustion (`StopIteration`) is the end
of the list. -/
inductive Pull (ρ : Type) where
  | ok (r : ρ)
  | err (e : Err)
deriving DecidableEq

/-- `RecordStream._record_iterator` consumed by a caller with no error
handling: records are produced until the first exception, which
propagates (ending iteration). -/
def recordIterator {ρ : Type} : List (Pull ρ) → List ρ × Option Err
  | [] => ([], none)
  | .ok r :: rest =>
      let out := recordIterator rest
      (r :: out.1, out.2)
  | .err e :: _ => ([], some e)

/-- `RecordStream._record_error_iterator`: manual iteration that catches
exceptions.  `record` is the local variable of the same name (initially
Python `None`, hence the yields are `Option ρ` values).  On a caught
exception with a handler present, the handler is invoked with the
exception and the current value of `record`, and then the loop falls
through to `yield record`; without a handler the exception is re-raised.
The result is (yielded values, handler invocations, propagated
exception). -/
def recordErrorIterator {ρ : Type} (hasHandler : Bool) :
    List (Pull ρ) → Option ρ →
    List (Option ρ) × List (Err × Option ρ) × Option Err
  | [], _ => ([], [], none)
  | .ok r :: rest, _ =>
      let out := recordErrorIterator hasHandler rest (some r)
      (some r :: out.1, out.2.1, out.2.2)
  | .err e :: rest, record =>
      if hasHandler then
        let out := recordErrorIterator hasHandler rest record
        (record :: out.1, (e, record) :: out.2.1, out.2.2)
      else
        ([], [], some e)

/-- `RecordStream.records(error_handler)`: with a handler it returns the
error iterator, without one the plain record iterator.  Outputs are
normalized to the error-iterator shape (yields as `Option ρ`, handler
invocations, propagated exception). -/
def recordsModel {ρ : Type} (hasHandler : Bool) (pulls : List (Pull ρ)) :
    List (Option ρ) × List (Err × Option ρ) × Option Err :=
  if hasHandler then
    recordErrorIterator true pulls none
  else
    let out := recordIterator pulls
    (out.1.map some, [], out.2)

/-- An argument passed to `Relations.add`: either a `RecordStream` or
some other object. -/
inductive RelArg (ρ : Type) where
  | stream (rs : RecordStream ρ)
  | notStream
deriving DecidableEq

/-- `relational.Relations.add`: rejects non-streams with `ValueError`,
otherwise delegates to `NamedItems.add` under the `name` property (which
substitutes the placeholder for an unset name). -/
def relationsAdd {ρ : Type} (c : NamedItems (RecordStream ρ))
    (arg : RelArg ρ) : NamedItems (RecordStream ρ) × Option Err :=
  match arg with
  | .notStream => (c, some (Err.valueError "Not a relation"))
  | .stream rs => c.add rs.nameProp rs

/-- A grouped relation: the list of `(key, run)` pairs produced by
`itertools.groupby` over one sorted relation. -/
abbrev GB (K ρ : Type) : Type := List (Option K × List ρ)

/-- The merge-collect state: for each relation, its registered name and
its (remaining) grouped iterator. -/
abbrev MCSt (K ρ : Type) : Type := List (String × GB K ρ)

/-- The group-accumulation loop of `itertools.groupby`: `k` is the key
saved when the current group started (CPython target key), `acc` the
elements of the current group so far in reverse.  Each further element
joins the current group when its key equals `k`, otherwise it starts a
new group. -/
def pygroupbyAux {ρ κ : Type} [DecidableEq κ] (key : ρ → κ) (k : κ)
    (acc : List ρ) : List ρ → List (κ × List ρ)
  | [] => [(k, acc.reverse)]
  | y :: ys =>
      if key y = k then pygroupbyAux key k (y :: acc) ys
      else (k, acc.reverse) :: pygroupbyAux key (key y) [y] ys

/-- `itertools.groupby(records, keyfunc)`: partitions a list into
maximal consecutive runs whose key equals the key of the first element
of the run. -/
def pygroupby {ρ κ : Type} [DecidableEq κ] (key : ρ → κ) : List ρ → List (κ × List ρ)
  | [] => []
  | x :: xs => pygroupbyAux key (key x) [x] xs

/-- The null-key skipping applied by `merge_collect` every time a
relation is advanced: discard groups until one with a non-null key (or
exhaustion). -/
def skipNone {K ρ : Type} (l : GB K ρ) : GB K ρ :=
  l.dropWhile (fun kg => kg.1.isNone)

/-- The key of the current group of a grouped iterator (`None` when the
iterator is exhausted), as maintained in the `keys` list of
`merge_collect`. -/
def headKey {K ρ : Type} : GB K ρ → Option K
  | [] => none
  | kg :: _ => kg.1

/-- `relational.CollectedRecords`: the per-key output group, a
`NamedItems` from relation names to record lists plus the group key. -/
structure CollectedRecords (K ρ : Type) where
  groupbyKey : Option K
  recs : NamedItems (List ρ)
deriving DecidableEq

/-- The loop of `CollectedRecords.__init__`: add `(name, [])` for every
registered relation name, stopping at the first raised error. -/
def addEmpties {ρ : Type} (c : NamedItems (List ρ)) :
    List String → NamedItems (List ρ) × Option Err
  | [] => (c, none)
  | n :: rest =>
      match c.add n [] with
      | (c2, none) => addEmpties c2 rest
      | (c2, some e) => (c2, some e)

/-- `CollectedRecords(groupby_key, relations)`: records the key and
pre-populates one empty record list per registered relation name. -/
def initCollected {K ρ : Type} (k : Option K) (names : List String) :
    CollectedRecords K ρ × Option Err :=
  let out := addEmpties NamedItems.empty names
  (⟨k, out.1⟩, out.2)

/-- The `for min_idx in min_idxs` population loop of `merge_collect`:
`records.add(self.name_at(min_idx), list(keys_groups[min_idx][1]))`.
An out-of-range index raises `IndexError` from `name_at`; an exhausted
cursor raises `TypeError` from subscripting Python `None`; otherwise
`NamedItems.add` decides (raising `ValueError` on a duplicate name). -/
def addRuns {K ρ : Type} (c : NamedItems (List ρ)) (st : MCSt K ρ) :
    List Nat → NamedItems (List ρ) × Option Err
  | [] => (c, none)
  | i :: rest =>
      match st.get? i with
      | none => (c, some Err.indexError)
      | some p =>
          match p.2 with
          | [] => (c, some Err.typeError)
          | kg :: _ =>
              match c.add p.1 kg.2 with
              | (c2, none) => addRuns c2 st rest
              | (c2, some e) => (c2, some e)

/-- Building one output group in `merge_collect`: construct the
pre-populated `CollectedRecords`, then add the run of every relation
whose key is minimal. -/
def buildGroup {K ρ : Type} (st : MCSt K ρ) (minKey : Option K)
    (minIdxs : List Nat) : CollectedRecords K ρ × Option Err :=
  let init := initCollected minKey (st.map (fun p => p.1))
  match init.2 with
  | some e => (init.1, some e)
  | none =>
      let out := addRuns init.1.recs st minIdxs
      (⟨minKey, out.1⟩, out.2)

/-- The loop of `relational.indices_of_minimums`: scan the values with
their indices, skipping `None`, keeping the least value seen and the
list of indices attaining it. -/
def indicesOfMinimumsAux {K : Type} [LinearOrder K] :
    List (Option K) → Nat → Option K → List Nat → Option K × List Nat
  | [], _, minV, minIdxs => (minV, minIdxs)
  | none :: rest, i, minV, minIdxs =>
      indicesOfMinimumsAux rest (i + 1) minV minIdxs
  | some v :: rest, i, minV, minIdxs =>
      match minV with
      | none => indicesOfMinimumsAux rest (i + 1) (some v) [i]
      | some m =>
          if v < m then indicesOfMinimumsAux rest (i + 1) (some v) [i]
          else if v = m then
            indicesOfMinimumsAux rest (i + 1) (some m) (minIdxs ++ [i])
          else indicesOfMinimumsAux rest (i + 1) (some m) minIdxs

/-- `relational.indices_of_minimums(values)`. -/
def indicesOfMinimums {K : Type} [LinearOrder K] (values : List (Option K)) :
    Option K × List Nat :=
  indicesOfMinimumsAux values 0 none []

/-- The increment step of `merge_collect`: every relation whose index is
among the minimum indices advances to its next group and then skips any
null-keyed groups; `i` is the absolute index of the first element of
`st`. -/
def advanceFrom {K ρ : Type} (i : Nat) (st : MCSt K ρ) (idxs : List Nat) :
    MCSt K ρ :=
  match st with
  | [] => []
  | p :: rest =>
      (if i ∈ idxs then (p.1, skipNone p.2.tail) else p) ::
        advanceFrom (i + 1) rest idxs

/-- Total number of groups remaining across all cursors (the
termination measure of the merge loop). -/
def sumLen {K ρ : Type} (st : MCSt K ρ) : Nat :=
  (st.map (fun p => p.2.length)).sum

/-- How an iteration of `merge_collect` can end other than by
exhaustion: an exception propagates out of the generator, or the
generator loops forever without producing further output. -/
inductive Stop where
  | raised (e : Err)
  | diverges
deriving DecidableEq

theorem sumLen_cons {K ρ : Type} (p : String × GB K ρ) (rest : MCSt K ρ) :
    sumLen (p :: rest) = p.2.length + sumLen rest := by
  simp [sumLen]

theorem skipNone_tail_length_le {K ρ : Type} (l : GB K ρ) :
    (skipNone l.tail).length ≤ l.length := by
  calc (skipNone l.tail).length ≤ l.tail.length :=
        (List.dropWhile_sublist _).length_le
    _ ≤ l.length := by rw [List.length_tail]; exact Nat.sub_le _ _

theorem skipNone_tail_length_lt {K ρ : Type} (l : GB K ρ) (h : l ≠ []) :
    (skipNone l.tail).length < l.length := by
  have h1 : (skipNone l.tail).length ≤ l.tail.length :=
    (List.dropWhile_sublist _).length_le
  have h2 : l.tail.length < l.length := by
    cases l with
    | nil => exact absurd rfl h
    | cons a as => simp
  exact Nat.lt_of_le_of_lt h1 h2

theorem sumLen_advanceFrom_le {K ρ : Type} :
    ∀ (st : MCSt K ρ) (i : Nat) (idxs : List Nat),
      sumLen (advanceFrom i st idxs) ≤ sumLen st := by
  intro st
  induction st with
  | nil => intro i idxs; simp [advanceFrom]
  | cons q rest ih =>
      intro i idxs
      rw [advanceFrom, sumLen_cons, sumLen_cons]
      by_cases hmem : i ∈ idxs
      · simp only [hmem, if_pos]
        exact Nat.add_le_add (skipNone_tail_length_le _) (ih (i + 1) idxs)
      · simp only [hmem, if_neg, not_false_iff]
        exact Nat.add_le_add_left (ih (i + 1) idxs) _

theorem sumLen_advanceFrom_lt {K ρ : Type} :
    ∀ (st : MCSt K ρ) (i r : Nat) (idxs : List Nat) (p : String × GB K ρ),
      (i + r) ∈ idxs → st.get? r = some p → p.2 ≠ [] →
      sumLen (advanceFrom i st idxs) < sumLen st := by
  intro st
  induction st with
  | nil => intro i r idxs p _ hget; simp [List.get?] at hget
  | cons q rest ih =>
      intro i r idxs p hmem hget hne
      rw [advanceFrom, sumLen_cons, sumLen_cons]
      cases r with
      | zero =>
          simp only [List.get?] at hget
          injection hget with hq
          subst hq
          have hmem0 : i ∈ idxs := by simpa using hmem
          simp only [hmem0, if_pos]
          exact Nat.add_lt_add_of_lt_of_le (skipNone_tail_length_lt _ hne)
            (sumLen_advanceFrom_le rest (i + 1) idxs)
      | succ r2 =>
          simp only [List.get?] at hget
          have hmem2 : (i + 1) + r2 ∈ idxs := by
            have heq : i + 1 + r2 = i + (r2 + 1) := by omega
            rw [heq]; exact hmem
          have hrest := ih (i + 1) r2 idxs p hmem2 hget hne
          by_cases hm : i ∈ idxs
          · simp only [hm, if_pos]
            exact Nat.add_lt_add_of_le_of_lt (skipNone_tail_length_le _) hrest
          · simp only [hm, if_neg, not_false_iff]
            exact Nat.add_lt_add_left hrest _

theorem iomAux_nil {K : Type} [LinearOrder K] (i : Nat) (minV : Option K)
    (minIdxs : List Nat) :
    indicesOfMinimumsAux ([] : List (Option K)) i minV minIdxs = (minV, minIdxs) := rfl

theorem iomAux_none {K : Type} [LinearOrder K] (rest : List (Option K)) (i : Nat)
    (minV : Option K) (minIdxs : List Nat) :
    indicesOfMinimumsAux (none :: rest) i minV minIdxs =
      indicesOfMinimumsAux rest (i + 1) minV minIdxs := rfl

theorem iomAux_some_fresh {K : Type} [LinearOrder K] (v : K)
    (rest : List (Option K)) (i : Nat) (minIdxs : List Nat) :
    indicesOfMinimumsAux (some v :: rest) i none minIdxs =
      indicesOfMinimumsAux rest (i + 1) (some v) [i] := rfl

theorem iomAux_some_min {K : Type} [LinearOrder K] (v m : K)
    (rest : List (Option K)) (i : Nat) (minIdxs : List Nat) :
    indicesOfMinimumsAux (some v :: rest) i (some m) minIdxs =
      (if v < m then indicesOfMinimumsAux rest (i + 1) (some v) [i]
       else if v = m then indicesOfMinimumsAux rest (i + 1) (some m) (minIdxs ++ [i])
       else indicesOfMinimumsAux rest (i + 1) (some m) minIdxs) := rfl

theorem indicesOfMinimumsAux_mem {K : Type} [LinearOrder K] :
    ∀ (vs : List (Option K)) (i : Nat) (minV : Option K) (minIdxs : List Nat)
      (j : Nat), j ∈ (indicesOfMinimumsAux vs i minV minIdxs).2 →
      j ∈ minIdxs ∨ ∃ r v, vs.get? r = some (some v) ∧ j = i + r := by
  intro vs
  induction vs with
  | nil =>
      intro i minV minIdxs j h
      exact Or.inl (by simpa [iomAux_nil] using h)
  | cons v0 rest ih =>
      intro i minV minIdxs j h
      have fromRest : (∃ r v, rest.get? r = some (some v) ∧ j = (i + 1) + r) →
          (∃ r v, (v0 :: rest).get? r = some (some v) ∧ j = i + r) := by
        rintro ⟨r, v, hget, hj⟩
        exact ⟨r + 1, v, by simpa [List.get?] using hget, by omega⟩
      cases v0 with
      | none =>
          rw [iomAux_none] at h
          rcases ih (i + 1) minV minIdxs j h with hl | hr
          · exact Or.inl hl
          · exact Or.inr (fromRest hr)
      | some v1 =>
          have fromIdx : j = i →
              (∃ r v, (some v1 :: rest).get? r = some (some v) ∧ j = i + r) :=
            fun hji => ⟨0, v1, by simp [List.get?], by omega⟩
          cases minV with
          | none =>
              rw [iomAux_some_fresh] at h
              rcases ih (i + 1) (some v1) [i] j h with hl | hr
              · exact Or.inr (fromIdx (by simpa using hl))
              · exact Or.inr (fromRest hr)
          | some m =>
              rw [iomAux_some_min] at h
              by_cases hlt : v1 < m
              · rw [if_pos hlt] at h
                rcases ih (i + 1) (some v1) [i] j h with hl | hr
                · exact Or.inr (fromIdx (by simpa using hl))
                · exact Or.inr (fromRest hr)
              · by_cases heq : v1 = m
                · rw [if_neg hlt, if_pos heq] at h
                  rcases ih (i + 1) (some m) (minIdxs ++ [i]) j h with hl | hr
                  · rcases List.mem_append.mp hl with hl2 | hl2
                    · exact Or.inl hl2
                    · exact Or.inr (fromIdx (by simpa using hl2))
                  · exact Or.inr (fromRest hr)
                · rw [if_neg hlt, if_neg heq] at h
                  rcases ih (i + 1) (some m) minIdxs j h with hl | hr
                  · exact Or.inl hl
                  · exact Or.inr (fromRest hr)

theorem indicesOfMinimums_mem {K : Type} [LinearOrder K]
    (vs : List (Option K)) (j : Nat) (h : j ∈ (indicesOfMinimums vs).2) :
    ∃ v, vs.get? j = some (some v) := by
  rcases indicesOfMinimumsAux_mem vs 0 none [] j h with hl | ⟨r, v, hget, hj⟩
  · simp at hl
  · exact ⟨v, by rwa [show j = r by omega]⟩

theorem indicesOfMinimumsAux_ne_nil {K : Type} [LinearOrder K] :
    ∀ (vs : List (Option K)) (i : Nat) (minV : Option K) (minIdxs : List Nat),
      (minV.isSome → minIdxs ≠ []) →
      (minIdxs ≠ [] ∨ ∃ v ∈ vs, v.isSome) →
      (indicesOfMinimumsAux vs i minV minIdxs).2 ≠ [] := by
  intro vs
  induction vs with
  | nil =>
      intro i minV minIdxs hinv hdisj
      rcases hdisj with h | ⟨v, hv, _⟩
      · simpa [iomAux_nil] using h
      · simp at hv
  | cons v0 rest ih =>
      intro i minV minIdxs hinv hdisj
      cases v0 with
      | none =>
          rw [iomAux_none]
          apply ih (i + 1) minV minIdxs hinv
          rcases hdisj with h | ⟨v, hv, hsome⟩
          · exact Or.inl h
          · rcases List.mem_cons.mp hv with hv0 | hv2
            · rw [hv0] at hsome; simp at hsome
            · exact Or.inr ⟨v, hv2, hsome⟩
      | some v1 =>
          cases minV with
          | none =>
              rw [iomAux_some_fresh]
              exact ih (i + 1) (some v1) [i] (fun _ => by simp) (Or.inl (by simp))
          | some m =>
              have hne : minIdxs ≠ [] := hinv (by simp)
              rw [iomAux_some_min]
              by_cases hlt : v1 < m
              · rw [if_pos hlt]
                exact ih (i + 1) (some v1) [i] (fun _ => by simp) (Or.inl (by simp))
              · by_cases heq : v1 = m
                · rw [if_neg hlt, if_pos heq]
                  exact ih (i + 1) (some m) (minIdxs ++ [i])
                    (fun _ => by simp) (Or.inl (by simp))
                · rw [if_neg hlt, if_neg heq]
                  exact ih (i + 1) (some m) minIdxs (fun _ => hne) (Or.inl hne)

theorem indicesOfMinimums_ne_nil {K : Type} [LinearOrder K]
    (vs : List (Option K)) (h : ∃ v ∈ vs, v.isSome) :
    (indicesOfMinimums vs).2 ≠ [] :=
  indicesOfMinimumsAux_ne_nil vs 0 none [] (by simp) (Or.inr h)

theorem sumLen_advance_minIdxs_lt {K ρ : Type} [LinearOrder K] (st : MCSt K ρ)
    (h : (indicesOfMinimums (st.map (fun p => headKey p.2))).2 ≠ []) :
    sumLen (advanceFrom 0 st (indicesOfMinimums (st.map (fun p => headKey p.2))).2)
      < sumLen st := by
  obtain ⟨j, hj⟩ := List.exists_mem_of_ne_nil _ h
  obtain ⟨v, hv⟩ := indicesOfMinimums_mem _ j hj
  rw [List.get?_map] at hv
  cases hst : st.get? j with
  | none => rw [hst] at hv; simp at hv
  | some p =>
      rw [hst] at hv
      simp only [Option.map] at hv
      injection hv with hv2
      have hne : p.2 ≠ [] := by
        cases p2 : p.2 with
        | nil => rw [p2] at hv2; simp [headKey] at hv2
        | cons a as => simp
      exact sumLen_advanceFrom_lt st 0 j _ p (by simpa using hj) hst hne

/-- The `merge_collect` generator loop (`while any(keys_groups)`), run to
completion on the current cursors.  Each iteration: find the minimum
keys, build the `CollectedRecords` group (which can raise), yield it,
then advance and null-skip every contributing cursor.  A raised
exception ends the iteration with `Stop.raised`; if no index attains a
minimum while some cursor is live the Python loop would re-yield the
same empty group forever, recorded as `Stop.diverges` (unreachable from
`mergeCollect`, whose cursors are always null-skipped). -/
def mcLoop {K ρ : Type} [LinearOrder K] (st : MCSt K ρ) :
    List (CollectedRecords K ρ) × Option Stop :=
  if st.all (fun p => p.2.isEmpty) then ([], none)
  else
    let keys := st.map (fun p => headKey p.2)
    let mk := indicesOfMinimums keys
    let bg := buildGroup st mk.1 mk.2
    match bg.2 with
    | some ex => ([], some (Stop.raised ex))
    | none =>
        if hmk : mk.2 = [] then ([bg.1], some Stop.diverges)
        else
          let next := mcLoop (advanceFrom 0 st mk.2)
          (bg.1 :: next.1, next.2)
termination_by sumLen st
decreasing_by
  exact sumLen_advance_minIdxs_lt st hmk

/-- `MergeCollect.merge_collect()` from the post-construction state: the
initial `next` on every grouped iterator followed by the initial
null-key skipping, then the merge loop. -/
def mergeCollect {K ρ : Type} [LinearOrder K] (st : MCSt K ρ) :
    List (CollectedRecords K ρ) × Option Stop :=
  mcLoop (st.map (fun p => (p.1, skipNone p.2)))

/-- Merge-collect over raw (already sorted) rows: group each relation
with `itertools.groupby` under its key function, then run the merge. -/
def mergeCollectRows {K ρ : Type} [LinearOrder K] (key : ρ → Option K)
    (rels : List (String × List ρ)) :
    List (CollectedRecords K ρ) × Option Stop :=
  mergeCollect (rels.map (fun p => (p.1, pygroupby key p.2)))

/-- `operator.itemgetter(i)` applied to a record that conforms to its
header (the record has a value, possibly null, at every header column).
The `IndexError` a too-short record would raise inside iteration is not
modelled; the claims under verification concern conforming records. -/
def cell {K : Type} (r : List (Option K)) (i : Nat) : Option K :=
  r.getD i none

/-- One argument of `MergeCollect.__init__`: a record stream, a
(record stream, key) pair, a ((name, header, records), key) pair, a
2-tuple whose first element is neither of those, or any other object. -/
inductive RelSpec (K : Type) where
  | stream (rs : RecordStream (List (Option K)))
  | pairStream (rs : RecordStream (List (Option K))) (key : PyKey)
  | pairTriple (name : Option String) (header : Option Header)
      (records : List (List (Option K))) (key : PyKey)
  | pairOther (key : PyKey)
  | other
deriving DecidableEq

/-- The shape dispatch at the top of
`MergeCollect._interpret_as_ordered_relation`: produce the relation and
its key, building a `RecordStream` from a (name, header, records)
triple, and rejecting unrecognized shapes with `ValueError`. -/
def relSpecShape {K : Type} (obj : RelSpec K) (key : PyKey) :
    Except Err (RecordStream (List (Option K)) × PyKey) :=
  match obj with
  | .stream rs => Except.ok (rs, key)
  | .pairStream rs k => Except.ok (rs, k)
  | .pairTriple nm hdr recs k => Except.ok (⟨nm, hdr, recs⟩, k)
  | .pairOther _ => Except.error (Err.valueError "Not a relation specification")
  | .other => Except.error (Err.valueError "Not a relation specification")

/-- `MergeCollect._interpret_as_ordered_relation`: shape dispatch, then
the three validations (has a name, has a header, key column contained in
the header), each failing with `ValueError`. -/
def interpretAsOrderedRelation {K : Type} (obj : RelSpec K) (key : PyKey) :
    Except Err (RecordStream (List (Option K)) × PyKey) :=
  match relSpecShape obj key with
  | Except.error e => Except.error e
  | Except.ok rk =>
      if rk.1.hasName then
        if rk.1.hasHeader then
          match rk.1.header with
          | some h =>
              if h.containsKey rk.2 then Except.ok rk
              else Except.error
                (Err.valueError (rk.1.nameProp ++ ": Column not found"))
          | none => Except.error Err.attributeError
        else Except.error (Err.valueError "Relation does not have a header")
      else Except.error (Err.valueError "Relation does not have a name")

/-- The relation loop of `MergeCollect.__init__`: interpret and validate
each argument, register the relation (`Relations.add`, which raises on a
duplicate name), apply the `order_by` placeholder (the identity in the
source), resolve the key to a column index with `Header.index_of`, and
append the grouped records.  `added` carries the registered relations
and `gbs` the accumulated (name, grouped records) state. -/
def mcInitAux {K : Type} [DecidableEq K] (argKey : PyKey) :
    List (RelSpec K) → NamedItems (RecordStream (List (Option K))) →
    MCSt K (List (Option K)) → Except Err (MCSt K (List (Option K)))
  | [], _, gbs => Except.ok gbs
  | spec :: rest, added, gbs =>
      match interpretAsOrderedRelation spec argKey with
      | Except.error e => Except.error e
      | Except.ok rk =>
          match relationsAdd added (RelArg.stream rk.1) with
          | (_, some e) => Except.error e
          | (added2, none) =>
              match rk.1.header with
              | none => Except.error Err.attributeError
              | some h =>
                  match h.indexOfKey rk.2 with
                  | Except.error e => Except.error e
                  | Except.ok colIdx =>
                      mcInitAux argKey rest added2
                        (gbs ++ [(rk.1.nameProp,
                          pygroupby (fun r => cell r colIdx) rk.1.records)])

/-- `MergeCollect.__init__(*relations, key=...)` (the Python default for
the key argument is the int `0`, i.e. `PyKey.idx 0`). -/
def mergeCollectInit {K : Type} [DecidableEq K] (specs : List (RelSpec K))
    (argKey : PyKey) : Except Err (MCSt K (List (Option K))) :=
  mcInitAux argKey specs NamedItems.empty []

/-- Construct a `MergeCollect` and iterate it: the observable outcome of
`list(MergeCollect(*specs, key=argKey))`. -/
def mergeCollectFull {K : Type} [LinearOrder K] (specs : List (RelSpec K))
    (argKey : PyKey) :
    Except Err (List (CollectedRecords K (List (Option K))) × Option Stop) :=
  (mergeCollectInit specs argKey).map mergeCollect

/-- Injection of `Except` into a sum, used to derive decidable equality
for concrete-case evaluation. -/
def exceptToSum {ε α : Type} : Except ε α → ε ⊕ α
  | Except.error e => Sum.inl e
  | Except.ok a => Sum.inr a

instance {ε α : Type} [DecidableEq ε] [DecidableEq α] :
    DecidableEq (Except ε α) := fun a b =>
  decidable_of_iff (exceptToSum a = exceptToSum b)
    (by cases a <;> cases b <;> simp [exceptToSum])

/-- The key of the first row whose key is non-null (`none` when there is
no such row).  This is the specification-level notion the null-skipped
cursors realize. -/
def firstSomeKey {K ρ : Type} (key : ρ → Option K) (l : List ρ) : Option K :=
  match l.filter (fun r => (key r).isSome) with
  | [] => none
  | r :: _ => key r

theorem skipNone_pygroupbyAux_headKey {K ρ : Type} [DecidableEq K]
    (key : ρ → Option K) :
    ∀ (ys : List ρ) (k : Option K) (acc : List ρ),
      headKey (skipNone (pygroupbyAux key k acc ys)) =
        (if k.isSome then k else firstSomeKey key ys) := by
  intro ys
  induction ys with
  | nil =>
      intro k acc
      cases k with
      | none => simp [pygroupbyAux, skipNone, headKey, firstSomeKey]
      | some v => simp [pygroupbyAux, skipNone, headKey]
  | cons y ys ih =>
      intro k acc
      rw [pygroupbyAux]
      by_cases hky : key y = k
      · rw [if_pos hky, ih]
        cases k with
        | none =>
            have : (key y).isSome = false := by rw [hky]; rfl
            simp [firstSomeKey, List.filter, this]
        | some v => simp
      · rw [if_neg hky]
        cases k with
        | none =>
            have hysome : (key y).isSome := by
              cases hk2 : key y with
              | none => exact absurd hk2 hky
              | some v => rfl
            have hskip : skipNone ((none, acc.reverse) :: pygroupbyAux key (key y) [y] ys)
                = skipNone (pygroupbyAux key (key y) [y] ys) := by
              simp [skipNone, List.dropWhile]
            rw [hskip, ih, if_pos hysome]
            simp [firstSomeKey, List.filter, hysome]
        | some v =>
            have hskip : skipNone ((some v, acc.reverse) :: pygroupbyAux key (key y) [y] ys)
                = (some v, acc.reverse) :: pygroupbyAux key (key y) [y] ys := by
              simp [skipNone, List.dropWhile]
            rw [hskip]
            simp [headKey]

theorem skipNone_pygroupby_headKey {K ρ : Type} [DecidableEq K]
    (key : ρ → Option K) (rows : List ρ) :
    headKey (skipNone (pygroupby key rows)) = firstSomeKey key rows := by
  cases rows with
  | nil => simp [pygroupby, skipNone, headKey, firstSomeKey]
  | cons x xs =>
      rw [pygroupby, skipNone_pygroupbyAux_headKey]
      cases hk : key x with
      | none =>
          have hfalse : (key x).isSome = false := by rw [hk]; rfl
          simp [hfalse, firstSomeKey, List.filter]
      | some v =>
          simp [firstSomeKey, List.filter, hk]

theorem headKey_skipNone_isSome {K ρ : Type} :
    ∀ (l : GB K ρ), skipNone l ≠ [] → (headKey (skipNone l)).isSome := by
  intro l
  induction l with
  | nil => intro h; simp [skipNone] at h
  | cons kg rest ih =>
      intro h
      cases hn : kg.1 with
      | none =>
          have hskip : skipNone (kg :: rest) = skipNone rest := by
            simp [skipNone, List.dropWhile, hn]
          rw [hskip] at h ⊢
          exact ih h
      | some v =>
          have hskip : skipNone (kg :: rest) = kg :: rest := by
            simp [skipNone, List.dropWhile, hn]
          rw [hskip]
          simp [headKey, hn]

theorem firstSomeKey_eq_none_iff {K ρ : Type} (key : ρ → Option K)
    (rows : List ρ) :
    firstSomeKey key rows = none ↔ rows.filter (fun r => (key r).isSome) = [] := by
  constructor
  · intro h
    cases hf : rows.filter (fun r => (key r).isSome) with
    | nil => rfl
    | cons r rest =>
        have hr : r ∈ rows.filter (fun r => (key r).isSome) := by
          rw [hf]; exact List.mem_cons_self r rest
        have hsome : (key r).isSome := (List.mem_filter.mp hr).2
        have hk : firstSomeKey key rows = key r := by
          unfold firstSomeKey; rw [hf]
        rw [hk] at h
        rw [h] at hsome
        simp at hsome
  · intro h
    rw [firstSomeKey, h]

theorem skipNone_pygroupby_eq_nil_iff {K ρ : Type} [DecidableEq K]
    (key : ρ → Option K) (rows : List ρ) :
    skipNone (pygroupby key rows) = [] ↔
      rows.filter (fun r => (key r).isSome) = [] := by
  constructor
  · intro h
    rw [← firstSomeKey_eq_none_iff key rows, ← skipNone_pygroupby_headKey, h]
    rfl
  · intro h
    by_contra hne
    have hsome := headKey_skipNone_isSome (pygroupby key rows) hne
    rw [skipNone_pygroupby_headKey, (firstSomeKey_eq_none_iff key rows).mpr h] at hsome
    simp at hsome

theorem mcLoop_all_empty {K ρ : Type} [LinearOrder K] (st : MCSt K ρ)
    (h : st.all (fun p => p.2.isEmpty) = true) : mcLoop st = ([], none) := by
  rw [mcLoop.eq_def, if_pos h]

theorem mcLoop_raises {K ρ : Type} [LinearOrder K] (st : MCSt K ρ) (ex : Err)
    (h : st.all (fun p => p.2.isEmpty) = false)
    (h2 : (buildGroup st (indicesOfMinimums (st.map (fun p => headKey p.2))).1
      (indicesOfMinimums (st.map (fun p => headKey p.2))).2).2 = some ex) :
    mcLoop st = ([], some (Stop.raised ex)) := by
  rw [mcLoop.eq_def, if_neg (by simp [h])]
  simp only [h2]

theorem addEmpties_ok {ρ : Type} :
    ∀ (names : List String) (c : NamedItems (List ρ)),
      c.names.Disjoint names → names.Nodup →
      addEmpties c names =
        (⟨c.names ++ names, c.items ++ names.map (fun _ => [])⟩, none) := by
  intro names
  induction names with
  | nil => intro c _ _; simp [addEmpties]
  | cons n rest ih =>
      intro c hdisj hnd
      have hnmem : n ∉ c.names := fun hmem => hdisj hmem (List.mem_cons_self n rest)
      rw [addEmpties]
      have hadd : c.add n [] = (⟨c.names ++ [n], c.items ++ [[]]⟩, none) := by
        simp [NamedItems.add, hnmem]
      rw [hadd]
      show addEmpties ⟨c.names ++ [n], c.items ++ [[]]⟩ rest = _
      have hdisj2 : (c.names ++ [n]).Disjoint rest := by
        intro a ha hmem
        rcases List.mem_append.mp ha with h1 | h1
        · exact hdisj h1 (List.mem_cons_of_mem n hmem)
        · have : a = n := by simpa using h1
          rw [this] at hmem
          exact (List.nodup_cons.mp hnd).1 hmem
      have hnd2 : rest.Nodup := (List.nodup_cons.mp hnd).2
      rw [ih ⟨c.names ++ [n], c.items ++ [[]]⟩ hdisj2 hnd2]
      simp

theorem addEmpties_ok_names {ρ : Type} :
    ∀ (names : List String) (c : NamedItems (List ρ)),
      (addEmpties c names).2 = none →
      (addEmpties c names).1.names = c.names ++ names := by
  intro names
  induction names with
  | nil => intro c _; simp [addEmpties]
  | cons n rest ih =>
      intro c hok
      rw [addEmpties] at hok ⊢
      by_cases hnmem : n ∈ c.names
      · have hadd : c.add n [] =
            (c, some (Err.valueError ("Duplicate name: " ++ n))) := by
          simp [NamedItems.add, hnmem]
        rw [hadd] at hok
        simp at hok
      · have hadd : c.add n [] = (⟨c.names ++ [n], c.items ++ [[]]⟩, none) := by
          simp [NamedItems.add, hnmem]
        rw [hadd] at hok ⊢
        rw [ih ⟨c.names ++ [n], c.items ++ [[]]⟩ hok]
        simp

theorem addRuns_cons {K ρ : Type} (c : NamedItems (List ρ)) (st : MCSt K ρ)
    (i : Nat) (rest : List Nat) :
    addRuns c st (i :: rest) =
      (match st.get? i with
       | none => (c, some Err.indexError)
       | some p =>
           match p.2 with
           | [] => (c, some Err.typeError)
           | kg :: _ =>
               match c.add p.1 kg.2 with
               | (c2, none) => addRuns c2 st rest
               | (c2, some e) => (c2, some e)) := rfl

theorem addRuns_cons_snd_isSome {K ρ : Type} (c : NamedItems (List ρ))
    (st : MCSt K ρ) (i : Nat) (rest : List Nat)
    (hsub : ∀ p ∈ st, p.1 ∈ c.names) :
    (addRuns c st (i :: rest)).2.isSome := by
  rw [addRuns_cons]
  cases hg : st.get? i with
  | none => simp
  | some p =>
      cases hp : p.2 with
      | nil => simp [hp]
      | cons kg tl =>
          have hmem : p.1 ∈ c.names := hsub p (List.get?_mem hg)
          have hadd : c.add p.1 kg.2 =
              (c, some (Err.valueError ("Duplicate name: " ++ p.1))) := by
            simp [NamedItems.add, hmem]
          simp only [hp]
          rw [hadd]
          rfl

theorem buildGroup_cons_snd_isSome {K ρ : Type} (st : MCSt K ρ)
    (k : Option K) (i : Nat) (rest : List Nat) :
    (buildGroup st k (i :: rest)).2.isSome := by
  rw [buildGroup]
  cases hinit : (initCollected k (st.map (fun p => p.1)) :
      CollectedRecords K ρ × Option Err).2 with
  | some e => simp [hinit]
  | none =>
      simp only [hinit]
      have hnames : (initCollected k (st.map (fun p => p.1)) :
          CollectedRecords K ρ × Option Err).1.recs.names = st.map (fun p => p.1) := by
        rw [initCollected] at hinit ⊢
        simpa using addEmpties_ok_names (st.map (fun p => p.1)) NamedItems.empty hinit
      apply addRuns_cons_snd_isSome
      intro p hp
      rw [hnames]
      exact List.mem_map.mpr ⟨p, hp, rfl⟩

theorem forall2_map_eq {α β γ : Type} {R : α → β → Prop} {f : α → γ} {g : β → γ} :
    ∀ {l1 : List α} {l2 : List β}, List.Forall₂ R l1 l2 →
      (∀ a b, R a b → f a = g b) → l1.map f = l2.map g := by
  intro l1 l2 h hfg
  induction h with
  | nil => rfl
  | cons hab _ ih => simp only [List.map]; rw [hfg _ _ hab, ih]

theorem addRuns_snd_congr {K ρ : Type} :
    ∀ (idxs : List Nat) (st st2 : MCSt K ρ) (c c2 : NamedItems (List ρ)),
      st.map (fun p => p.1) = st2.map (fun p => p.1) →
      st.map (fun p => p.2.isEmpty) = st2.map (fun p => p.2.isEmpty) →
      c.names = c2.names →
      (addRuns c st idxs).2 = (addRuns c2 st2 idxs).2 := by
  intro idxs
  induction idxs with
  | nil => intro st st2 c c2 _ _ _; rfl
  | cons i rest ih =>
      intro st st2 c c2 hn he hc
      rw [addRuns_cons, addRuns_cons]
      have hfi : Option.map (fun p => p.1) (st.get? i)
          = Option.map (fun p => p.1) (st2.get? i) := by
        rw [← List.get?_map, ← List.get?_map, hn]
      have hei : Option.map (fun p => p.2.isEmpty) (st.get? i)
          = Option.map (fun p => p.2.isEmpty) (st2.get? i) := by
        rw [← List.get?_map, ← List.get?_map, he]
      cases hg : st.get? i with
      | none =>
          cases hg2 : st2.get? i with
          | none => simp
          | some q => rw [hg, hg2] at hfi; simp at hfi
      | some p =>
          cases hg2 : st2.get? i with
          | none => rw [hg, hg2] at hfi; simp at hfi
          | some q =>
              rw [hg, hg2] at hfi hei
              simp only [Option.map] at hfi hei
              injection hfi with hname
              injection hei with hempty
              cases hp : p.2 with
              | nil =>
                  cases hq : q.2 with
                  | nil => simp [hp, hq]
                  | cons kg2 tl2 =>
                      rw [hp, hq] at hempty
                      simp at hempty
              | cons kg tl =>
                  cases hq : q.2 with
                  | nil =>
                      rw [hp, hq] at hempty
                      simp at hempty
                  | cons kg2 tl2 =>
                      simp only [hp, hq]
                      by_cases hmem : p.1 ∈ c.names
                      · have hmem2 : q.1 ∈ c2.names := by
                          rw [← hname, ← hc]; exact hmem
                        have hadd : c.add p.1 kg.2 =
                            (c, some (Err.valueError ("Duplicate name: " ++ p.1))) := by
                          simp [NamedItems.add, hmem]
                        have hadd2 : c2.add q.1 kg2.2 =
                            (c2, some (Err.valueError ("Duplicate name: " ++ q.1))) := by
                          simp [NamedItems.add, hmem2]
                        rw [hadd, hadd2, hname]
                      · have hmem2 : q.1 ∉ c2.names := by
                          rw [← hname, ← hc]; exact hmem
                        have hadd : c.add p.1 kg.2 =
                            (⟨c.names ++ [p.1], c.items ++ [kg.2]⟩, none) := by
                          simp [NamedItems.add, hmem]
                        have hadd2 : c2.add q.1 kg2.2 =
                            (⟨c2.names ++ [q.1], c2.items ++ [kg2.2]⟩, none) := by
                          simp [NamedItems.add, hmem2]
                        rw [hadd, hadd2]
                        exact ih st st2 _ _ hn he (by rw [hc, hname])

theorem buildGroup_snd_congr {K ρ : Type} (st st2 : MCSt K ρ) (k : Option K)
    (idxs : List Nat)
    (hn : st.map (fun p => p.1) = st2.map (fun p => p.1))
    (he : st.map (fun p => p.2.isEmpty) = st2.map (fun p => p.2.isEmpty)) :
    (buildGroup st k idxs).2 = (buildGroup st2 k idxs).2 := by
  rw [buildGroup, buildGroup, hn]
  cases hinit : (initCollected k (st2.map (fun p => p.1)) :
      CollectedRecords K ρ × Option Err).2 with
  | some e => simp [hinit]
  | none =>
      simp only [hinit]
      exact addRuns_snd_congr idxs st st2 _ _ hn he rfl

theorem buildGroup_nil_eq {K ρ : Type} (st st2 : MCSt K ρ) (k : Option K)
    (hn : st.map (fun p => p.1) = st2.map (fun p => p.1)) :
    buildGroup st k [] = buildGroup st2 k [] := by
  rw [buildGroup, buildGroup, hn]
  cases hinit : (initCollected k (st2.map (fun p => p.1)) :
      CollectedRecords K ρ × Option Err).2 with
  | some e => simp [hinit]
  | none => simp [hinit, addRuns]

theorem mcLoop_diverges_case {K ρ : Type} [LinearOrder K] (st : MCSt K ρ)
    (h : st.all (fun p => p.2.isEmpty) = false)
    (h2 : (buildGroup st (indicesOfMinimums (st.map (fun p => headKey p.2))).1
      (indicesOfMinimums (st.map (fun p => headKey p.2))).2).2 = none)
    (h3 : (indicesOfMinimums (st.map (fun p => headKey p.2))).2 = []) :
    mcLoop st =
      ([(buildGroup st (indicesOfMinimums (st.map (fun p => headKey p.2))).1
        (indicesOfMinimums (st.map (fun p => headKey p.2))).2).1],
       some Stop.diverges) := by
  rw [mcLoop.eq_def, if_neg (by simp [h])]
  rw [h3] at h2
  simp only [h3, h2]
  simp

theorem map_eq_all_eq {α β : Type} {f : α → Bool} {g : β → Bool} :
    ∀ {l1 : List α} {l2 : List β}, l1.map f = l2.map g → l1.all f = l2.all g := by
  intro l1
  induction l1 with
  | nil =>
      intro l2 h
      cases l2 with
      | nil => rfl
      | cons b bs => simp at h
  | cons a as ih =>
      intro l2 h
      cases l2 with
      | nil => simp at h
      | cons b bs =>
          simp only [List.map_cons, List.cons.injEq] at h
          rw [List.all_cons, List.all_cons, h.1, ih h.2]

theorem mcLoop_congr {K ρ : Type} [LinearOrder K] (st st2 : MCSt K ρ)
    (hn : st.map (fun p => p.1) = st2.map (fun p => p.1))
    (hk : st.map (fun p => headKey p.2) = st2.map (fun p => headKey p.2))
    (he : st.map (fun p => p.2.isEmpty) = st2.map (fun p => p.2.isEmpty)) :
    mcLoop st = mcLoop st2 := by
  have hall : st.all (fun p => p.2.isEmpty) = st2.all (fun p => p.2.isEmpty) :=
    map_eq_all_eq he
  by_cases hA : st.all (fun p => p.2.isEmpty) = true
  · rw [mcLoop_all_empty st hA, mcLoop_all_empty st2 (by rw [← hall]; exact hA)]
  · have hAf : st.all (fun p => p.2.isEmpty) = false := by
      cases hx : st.all (fun p => p.2.isEmpty) with
      | true => exact absurd hx hA
      | false => rfl
    have hAf2 : st2.all (fun p => p.2.isEmpty) = false := by rw [← hall]; exact hAf
    have hbg : (buildGroup st (indicesOfMinimums (st.map (fun p => headKey p.2))).1
        (indicesOfMinimums (st.map (fun p => headKey p.2))).2).2
        = (buildGroup st2 (indicesOfMinimums (st2.map (fun p => headKey p.2))).1
        (indicesOfMinimums (st2.map (fun p => headKey p.2))).2).2 := by
      rw [← hk]
      exact buildGroup_snd_congr st st2 _ _ hn he
    cases hbgv : (buildGroup st (indicesOfMinimums (st.map (fun p => headKey p.2))).1
        (indicesOfMinimums (st.map (fun p => headKey p.2))).2).2 with
    | some ex =>
        rw [mcLoop_raises st ex hAf hbgv,
          mcLoop_raises st2 ex hAf2 (by rw [← hbg]; exact hbgv)]
    | none =>
        cases hidx : (indicesOfMinimums (st.map (fun p => headKey p.2))).2 with
        | nil =>
            have hidx2 : (indicesOfMinimums (st2.map (fun p => headKey p.2))).2 = [] := by
              rw [← hk]; exact hidx
            rw [mcLoop_diverges_case st hAf hbgv hidx,
              mcLoop_diverges_case st2 hAf2 (by rw [← hbg]; exact hbgv) hidx2]
            have hfst : (buildGroup st (indicesOfMinimums (st.map (fun p => headKey p.2))).1
                (indicesOfMinimums (st.map (fun p => headKey p.2))).2).1
                = (buildGroup st2 (indicesOfMinimums (st2.map (fun p => headKey p.2))).1
                (indicesOfMinimums (st2.map (fun p => headKey p.2))).2).1 := by
              rw [← hk, hidx]
              rw [buildGroup_nil_eq st st2 _ hn]
            rw [hfst]
        | cons i rest =>
            have hsome := buildGroup_cons_snd_isSome st
              (indicesOfMinimums (st.map (fun p => headKey p.2))).1 i rest
            rw [← hidx, hbgv] at hsome
            simp at hsome

/-- A two-column header (`id`, `val`) like the ones in the repository
test data. -/
def hdrIdVal : Header := ⟨[⟨"id", "int"⟩, ⟨"val", "int"⟩]⟩

/-- Relation `A`: one row with key 1. -/
def streamA : RecordStream (List (Option Nat)) :=
  ⟨some "A", some hdrIdVal, [[some 1, some 10]]⟩

/-- Relation `B`: one row with key 1 (sharing the key of `streamA`). -/
def streamB : RecordStream (List (Option Nat)) :=
  ⟨some "B", some hdrIdVal, [[some 1, some 20]]⟩

/-- The `ints` relation of the repository test suite (one row shown). -/
def streamInts : RecordStream (List (Option Nat)) :=
  ⟨some "ints", some hdrIdVal, [[some 1, some 280]]⟩

/-- A stream with a header but no name. -/
def streamNoName : RecordStream (List (Option Nat)) :=
  ⟨none, some hdrIdVal, []⟩

theorem mcInitAux_cons {K : Type} [DecidableEq K] (argKey : PyKey)
    (spec : RelSpec K) (rest : List (RelSpec K))
    (added : NamedItems (RecordStream (List (Option K))))
    (gbs : MCSt K (List (Option K))) :
    mcInitAux argKey (spec :: rest) added gbs =
      (match interpretAsOrderedRelation spec argKey with
       | Except.error e => Except.error e
       | Except.ok rk =>
           match relationsAdd added (RelArg.stream rk.1) with
           | (_, some e) => Except.error e
           | (added2, none) =>
               match rk.1.header with
               | none => Except.error Err.attributeError
               | some h =>
                   match h.indexOfKey rk.2 with
                   | Except.error e => Except.error e
                   | Except.ok colIdx =>
                       mcInitAux argKey rest added2
                         (gbs ++ [(rk.1.nameProp,
                           pygroupby (fun r => cell r colIdx) rk.1.records)])) := rfl

theorem interpret_error_isValueError {K : Type} (obj : RelSpec K) (key : PyKey)
    (e : Err) (h : interpretAsOrderedRelation obj key = Except.error e) :
    e.isValueError = true := by
  rw [interpretAsOrderedRelation] at h
  cases obj with
  | pairOther k =>
      simp only [relSpecShape] at h
      injection h with h2
      rw [← h2]; rfl
  | other =>
      simp only [relSpecShape] at h
      injection h with h2
      rw [← h2]; rfl
  | stream rs =>
      simp only [relSpecShape] at h
      by_cases hname : rs.hasName
      · rw [if_pos hname] at h
        cases hh : rs.header with
        | none =>
            have : rs.hasHeader = false := by
              rw [RecordStream.hasHeader, hh]; rfl
            rw [this] at h
            simp only [Bool.false_eq_true, if_false] at h
            injection h with h2
            rw [← h2]; rfl
        | some hd =>
            have : rs.hasHeader = true := by
              rw [RecordStream.hasHeader, hh]; rfl
            rw [this] at h
            simp only [if_true, hh] at h
            by_cases hcont : hd.containsKey key
            · rw [if_pos hcont] at h; simp at h
            · rw [if_neg hcont] at h
              injection h with h2
              rw [← h2]; rfl
      · rw [if_neg hname] at h
        injection h with h2
        rw [← h2]; rfl
  | pairStream rs k =>
      simp only [relSpecShape] at h
      by_cases hname : rs.hasName
      · rw [if_pos hname] at h
        cases hh : rs.header with
        | none =>
            have : rs.hasHeader = false := by
              rw [RecordStream.hasHeader, hh]; rfl
            rw [this] at h
            simp only [Bool.false_eq_true, if_false] at h
            injection h with h2
            rw [← h2]; rfl
        | some hd =>
            have : rs.hasHeader = true := by
              rw [RecordStream.hasHeader, hh]; rfl
            rw [this] at h
            simp only [if_true, hh] at h
            by_cases hcont : hd.containsKey k
            · rw [if_pos hcont] at h; simp at h
            · rw [if_neg hcont] at h
              injection h with h2
              rw [← h2]; rfl
      · rw [if_neg hname] at h
        injection h with h2
        rw [← h2]; rfl
  | pairTriple nm hdr recs k =>
      simp only [relSpecShape] at h
      cases nm with
      | none =>
          have : (⟨none, hdr, recs⟩ : RecordStream (List (Option K))).hasName = false := rfl
          rw [this] at h
          simp only [Bool.false_eq_true, if_false] at h
          injection h with h2
          rw [← h2]; rfl
      | some nm2 =>
          have : (⟨some nm2, hdr, recs⟩ : RecordStream (List (Option K))).hasName = true := rfl
          rw [this] at h
          simp only [if_true] at h
          cases hdr with
          | none =>
              have : (⟨some nm2, none, recs⟩ :
                  RecordStream (List (Option K))).hasHeader = false := rfl
              rw [this] at h
              simp only [Bool.false_eq_true, if_false] at h
              injection h with h2
              rw [← h2]; rfl
          | some hd =>
              have : (⟨some nm2, some hd, recs⟩ :
                  RecordStream (List (Option K))).hasHeader = true := rfl
              rw [this] at h
              simp only [if_true] at h
              by_cases hcont : hd.containsKey k
              · rw [if_pos hcont] at h; simp at h
              · rw [if_neg hcont] at h
                injection h with h2
                rw [← h2]; rfl

theorem mcInitAux_error_of_mem {K : Type} [DecidableEq K] (argKey : PyKey) :
    ∀ (specs : List (RelSpec K))
      (added : NamedItems (RecordStream (List (Option K))))
      (gbs : MCSt K (List (Option K))) (spec : RelSpec K) (e : Err),
      spec ∈ specs → interpretAsOrderedRelation spec argKey = Except.error e →
      ∃ e2, mcInitAux argKey specs added gbs = Except.error e2 := by
  intro specs
  induction specs with
  | nil => intro added gbs spec e hmem _; simp at hmem
  | cons s rest ih =>
      intro added gbs spec e hmem hbad
      rcases List.mem_cons.mp hmem with hs | hs
      · subst hs
        rw [mcInitAux_cons, hbad]
        exact ⟨e, rfl⟩
      · rw [mcInitAux_cons]
        cases hi : interpretAsOrderedRelation s argKey with
          | error e3 => exact ⟨e3, rfl⟩
          | ok rk =>
              cases hadd : relationsAdd added (RelArg.stream rk.1) with
              | mk added2 oe =>
                  cases oe with
                  | some e3 => exact ⟨e3, by simp [hadd]⟩
                  | none =>
                      simp only [hadd]
                      cases hh : rk.1.header with
                      | none => exact ⟨Err.attributeError, by simp [hh]⟩
                      | some hd =>
                          simp only [hh]
                          cases hidx : hd.indexOfKey rk.2 with
                          | error e3 => exact ⟨e3, by simp [hidx]⟩
                          | ok colIdx =>
                              simp only [hidx]
                              exact ih added2 _ spec e hs hbad

/-- Claim C1, evaluated at the failing input: one relation `A`, sorted on
its key column `id`, holding the single row `[1, 10]` with key 1.  The
claim says iterating `MergeCollect` yields exactly one `CollectedRecords`
with `groupby_key = 1` containing that row under name `A`.  Instead the
code raises `ValueError("Duplicate name: A")` while building the first
group, because `CollectedRecords.__init__` pre-registers every relation
name with an empty record list and `merge_collect` then calls `add`
under one of those same names; no group is ever yielded. -/
theorem c1_first_group_raises_duplicate_name :
    mergeCollectFull [RelSpec.pairStream streamA (PyKey.name "id")]
        (PyKey.name "id")
      = Except.ok ([], some (Stop.raised (Err.valueError "Duplicate name: A"))) := by
  have hinit : mergeCollectInit [RelSpec.pairStream streamA (PyKey.name "id")]
      (PyKey.name "id") = Except.ok [("A", [(some 1, [[some 1, some 10]])])] := by rfl
  rw [mergeCollectFull, hinit, Except.map, mergeCollect]
  rw [mcLoop_raises _ (Err.valueError "Duplicate name: A") (by rfl) (by rfl)]

/-- Claim C2, evaluated at the failing input: two relations `A` and `B`,
each sorted on `id` and each holding one row with the shared key 1.  The
claim says the two groups sharing the minimum key are merged into one
yielded output group with `groupby_key = 1`; instead the code raises
`ValueError("Duplicate name: A")` while building that first merged group
(the duplicate-name defect of `CollectedRecords` population), so no
group is yielded at all. -/
theorem c2_shared_min_key_group_raises :
    mergeCollectFull [RelSpec.pairStream streamA (PyKey.name "id"),
        RelSpec.pairStream streamB (PyKey.name "id")] (PyKey.name "id")
      = Except.ok ([], some (Stop.raised (Err.valueError "Duplicate name: A"))) := by
  have hinit : mergeCollectInit [RelSpec.pairStream streamA (PyKey.name "id"),
      RelSpec.pairStream streamB (PyKey.name "id")] (PyKey.name "id")
      = Except.ok [("A", [(some 1, [[some 1, some 10]])]),
          ("B", [(some 1, [[some 1, some 20]])])] := by rfl
  rw [mergeCollectFull, hinit, Except.map, mergeCollect]
  rw [mcLoop_raises _ (Err.valueError "Duplicate name: A") (by rfl) (by rfl)]

/-- Claim C3, amended: a constructor argument that fails interpretation
(bad shape, missing name, missing header, or key column not in the
header) raises `ValueError` — not the `SchemaError` class named by the
specification, which the source never defines — and it does so at
construction: `MergeCollect.__init__` returns that (or an earlier
argument failure) as an error before any merge output exists. -/
theorem c3_construction_fails_fast_with_valueError {K : Type} [DecidableEq K]
    (specs : List (RelSpec K)) (argKey : PyKey) (spec : RelSpec K) (e : Err)
    (hmem : spec ∈ specs)
    (hbad : interpretAsOrderedRelation spec argKey = Except.error e) :
    e.isValueError = true ∧
      ∃ e2, mergeCollectInit specs argKey = Except.error e2 :=
  ⟨interpret_error_isValueError spec argKey e hbad,
   mcInitAux_error_of_mem argKey specs NamedItems.empty [] spec e hmem hbad⟩

/-- Witness for C3 at a concrete input: a nameless stream. -/
theorem c3_witness :
    (Err.valueError "Relation does not have a name").isValueError = true ∧
      ∃ e2, mergeCollectInit [RelSpec.stream streamNoName] (PyKey.idx 0)
        = Except.error e2 :=
  c3_construction_fails_fast_with_valueError [RelSpec.stream streamNoName]
    (PyKey.idx 0) (RelSpec.stream streamNoName)
    (Err.valueError "Relation does not have a name") (by simp) (by rfl)

/-- Counterexample to claim C3 as stated: the error raised for a
nameless relation is a `ValueError`, not a `SchemaError` (no such class
exists in the source). -/
theorem c3_counterexample_not_schemaError :
    mergeCollectInit [RelSpec.stream streamNoName] (PyKey.idx 0)
      = Except.error (Err.valueError "Relation does not have a name")
    ∧ (Err.valueError "Relation does not have a name").isSchemaError = false :=
  ⟨rfl, rfl⟩

/-- Claim C4, evaluated at the failing input taken from the repository
test suite: a bare `RecordStream` named `ints` with a two-field header
and the default key (the int `0`).  Validation passes (an int key is
accepted by `Header.__contains__`), but `Header.index_of(0)` then looks
the int up in the string-keyed `_names2idxs` dict and raises `KeyError`,
so construction fails although the claim says it cannot. -/
theorem c4_default_int_key_raises_keyError :
    Header.containsKey hdrIdVal (PyKey.idx 0) = true
    ∧ Header.indexOfKey hdrIdVal (PyKey.idx 0) = Except.error Err.keyError
    ∧ mergeCollectInit [RelSpec.stream streamInts] (PyKey.idx 0)
        = Except.error Err.keyError := by
  refine ⟨by decide, by rfl, by rfl⟩

/-- Claim C6: a `MergeCollect` over zero relations yields an empty
sequence, and merge-collecting relations in which every row has a null
key also yields an empty sequence (and no error). -/
theorem c6_empty_or_all_null_yields_nothing {K ρ : Type} [LinearOrder K]
    (key : ρ → Option K) :
    mergeCollectFull ([] : List (RelSpec Nat)) (PyKey.idx 0)
        = Except.ok ([], none)
    ∧ ∀ rels : List (String × List ρ),
        (∀ p ∈ rels, ∀ r ∈ p.2, key r = none) →
        mergeCollectRows key rels = ([], none) := by
  constructor
  · show Except.ok (mergeCollect ([] : MCSt Nat (List (Option Nat)))) = _
    rw [mergeCollect, mcLoop_all_empty _ (by rfl)]
  · intro rels hnull
    rw [mergeCollectRows, mergeCollect]
    apply mcLoop_all_empty
    rw [List.map_map, List.all_eq_true]
    intro x hx
    obtain ⟨p, hp, hxp⟩ := List.mem_map.mp hx
    rw [← hxp]
    show (skipNone (pygroupby key p.2)).isEmpty = true
    have hfilter : p.2.filter (fun r => (key r).isSome) = [] := by
      rw [List.filter_eq_nil_iff]
      intro r hr
      rw [hnull p hp r hr]
      simp
    have hnil : skipNone (pygroupby key p.2) = [] :=
      (skipNone_pygroupby_eq_nil_iff key p.2).mpr hfilter
    rw [hnil]
    rfl

/-- Witness for C6 at concrete inputs: zero relations, and one relation
whose two rows both have a null key. -/
theorem c6_witness :
    mergeCollectFull ([] : List (RelSpec Nat)) (PyKey.idx 0)
        = Except.ok ([], none)
    ∧ mergeCollectRows (fun r => cell r 0)
        [("A", ([[none, some 5], [none, some 6]] : List (List (Option Nat))))]
        = ([], none) :=
  ⟨(c6_empty_or_all_null_yields_nothing (fun r : List (Option Nat) => cell r 0)).1,
   (c6_empty_or_all_null_yields_nothing (fun r => cell r 0)).2
     [("A", [[none, some 5], [none, some 6]])] (by decide)⟩

/-- Claim C7, evaluated at the failing input: an underlying iteration
that produces record 1, then raises, then produces record 2, consumed
through `records()` with an error handler.  The claim says the handler
receives the failed record and iteration continues with record 2 (the
failed position yielding nothing and no record repeated); instead the
code passes the stale previous record (record 1) to the handler and then
re-yields that stale record, producing 1, 1, 2.  Without a handler the
first exception propagates, as the claim says. -/
theorem c7_error_handler_yields_stale_record :
    recordsModel true [Pull.ok 1, Pull.err (Err.valueError "bad record"), Pull.ok 2]
      = ([some 1, some 1, some 2], [(Err.valueError "bad record", some 1)], none)
    ∧ recordsModel false [Pull.ok 1, Pull.err (Err.valueError "bad record"), Pull.ok 2]
      = ([some 1], [], some (Err.valueError "bad record")) :=
  ⟨rfl, rfl⟩

theorem mkHeaderAux_ok : ∀ (defs acc : List PyField),
    (acc.map PyField.name ++ defs.map PyField.name).Nodup →
    mkHeaderAux acc defs = Except.ok (acc ++ defs) := by
  intro defs
  induction defs with
  | nil => intro acc _; rw [mkHeaderAux]; simp
  | cons f rest ih =>
      intro acc hnd
      rw [mkHeaderAux]
      have hdisj : (acc.map PyField.name).Disjoint ((f :: rest).map PyField.name) :=
        List.disjoint_of_nodup_append hnd
      have hnmem : f.name ∉ acc.map PyField.name := by
        intro hmem
        exact hdisj hmem (by simp)
      rw [if_neg hnmem]
      have hnd2 : ((acc ++ [f]).map PyField.name ++ rest.map PyField.name).Nodup := by
        have hsame : (acc ++ [f]).map PyField.name ++ rest.map PyField.name
            = acc.map PyField.name ++ (f :: rest).map PyField.name := by
          simp
        rw [hsame]
        exact hnd
      rw [ih (acc ++ [f]) hnd2]
      simp

theorem mkHeaderAux_error : ∀ (defs acc : List PyField),
    ¬ (acc.map PyField.name ++ defs.map PyField.name).Nodup →
    (acc.map PyField.name).Nodup →
    ∃ msg, mkHeaderAux acc defs = Except.error (Err.valueError msg) := by
  intro defs
  induction defs with
  | nil =>
      intro acc hnnd hnd
      exact absurd (by simpa using hnd) hnnd
  | cons f rest ih =>
      intro acc hnnd hnd
      rw [mkHeaderAux]
      by_cases hmem : f.name ∈ acc.map PyField.name
      · rw [if_pos hmem]
        exact ⟨_, rfl⟩
      · rw [if_neg hmem]
        apply ih (acc ++ [f])
        · intro hcon
          apply hnnd
          have hsame : (acc ++ [f]).map PyField.name ++ rest.map PyField.name
              = acc.map PyField.name ++ (f :: rest).map PyField.name := by
            simp
          rw [hsame] at hcon
          exact hcon
        · rw [List.map_append]
          rw [List.nodup_append]
          refine ⟨hnd, by simp, ?_⟩
          intro a ha hb
          have : a = f.name := by simpa using hb
          rw [this] at ha
          exact hmem ha

/-- Claim C8, amended: `Header` construction fails with a `ValueError` —
not the `SchemaError` class named by the specification, which the source
never defines — exactly when a field name is duplicated or zero fields
are supplied, producing no `Header` in those cases; with at least one
field and all-distinct names it succeeds with exactly those fields. -/
theorem c8_header_construction_valueError (defs : List PyField) :
    ((∃ e, mkHeader defs = Except.error e) ↔
      (defs = [] ∨ ¬ (defs.map PyField.name).Nodup))
    ∧ (∀ e, mkHeader defs = Except.error e → e.isValueError = true)
    ∧ (defs ≠ [] → (defs.map PyField.name).Nodup →
        mkHeader defs = Except.ok ⟨defs⟩) := by
  have hsucc : defs ≠ [] → (defs.map PyField.name).Nodup →
      mkHeader defs = Except.ok ⟨defs⟩ := by
    intro hne hnd
    rw [mkHeader, mkHeaderAux_ok defs [] (by simpa using hnd)]
    cases defs with
    | nil => exact absurd rfl hne
    | cons f rest => rfl
  have herr : (defs = [] ∨ ¬ (defs.map PyField.name).Nodup) →
      ∃ msg, mkHeader defs = Except.error (Err.valueError msg) := by
    rintro (hnil | hnnd)
    · rw [hnil]
      exact ⟨"No fields were specified", rfl⟩
    · obtain ⟨msg, hmsg⟩ := mkHeaderAux_error defs [] (by simpa using hnnd) (by simp)
      rw [mkHeader, hmsg]
      exact ⟨msg, rfl⟩
  constructor
  · constructor
    · intro ⟨e, he⟩
      by_cases hnil : defs = []
      · exact Or.inl hnil
      · by_cases hnd : (defs.map PyField.name).Nodup
        · rw [hsucc hnil hnd] at he
          exact absurd he (by simp)
        · exact Or.inr hnd
    · intro h
      obtain ⟨msg, hmsg⟩ := herr h
      exact ⟨Err.valueError msg, hmsg⟩
  constructor
  · intro e he
    by_cases hnil : defs = []
    · obtain ⟨msg, hmsg⟩ := herr (Or.inl hnil)
      rw [hmsg] at he
      injection he with he2
      rw [← he2]
      rfl
    · by_cases hnd : (defs.map PyField.name).Nodup
      · rw [hsucc hnil hnd] at he
        exact absurd he (by simp)
      · obtain ⟨msg, hmsg⟩ := herr (Or.inr hnd)
        rw [hmsg] at he
        injection he with he2
        rw [← he2]
        rfl
  · exact hsucc

/-- Witness for C8 at concrete inputs: a valid two-field header
succeeds, a duplicated field name fails. -/
theorem c8_witness :
    mkHeader [⟨"id", "int"⟩, ⟨"val", "int"⟩]
      = Except.ok ⟨[⟨"id", "int"⟩, ⟨"val", "int"⟩]⟩
    ∧ (∃ e, mkHeader [⟨"a", "int"⟩, ⟨"a", "str"⟩] = Except.error e) :=
  ⟨(c8_header_construction_valueError [⟨"id", "int"⟩, ⟨"val", "int"⟩]).2.2
     (by decide) (by decide),
   (c8_header_construction_valueError [⟨"a", "int"⟩, ⟨"a", "str"⟩]).1.mpr
     (Or.inr (by decide))⟩

/-- Counterexample to claim C8 as stated: the duplicate-name and
zero-field failures raise `ValueError`, not a `SchemaError`. -/
theorem c8_counterexample_not_schemaError :
    mkHeader [⟨"a", "int"⟩, ⟨"a", "str"⟩]
      = Except.error (Err.valueError "Duplicate field name: a")
    ∧ (Err.valueError "Duplicate field name: a").isSchemaError = false
    ∧ mkHeader ([] : List PyField)
      = Except.error (Err.valueError "No fields were specified") :=
  ⟨rfl, rfl, rfl⟩

/-- Claim C9, amended: `Relations.add` raises `ValueError` in exactly
two cases — the argument is not a `RecordStream`, or the effective name
of the argument (its `name` property, which substitutes the placeholder
`<unknown>` for an unset name) duplicates that of an existing member — and
leaves the collection unchanged when it raises; otherwise it appends the
stream under its effective name, preserving insertion order.  A stream
with no name set does not raise: it is registered under `<unknown>`. -/
theorem c9_relations_add_two_failure_cases {ρ : Type}
    (c : NamedItems (RecordStream ρ)) (rs : RecordStream ρ) :
    relationsAdd c RelArg.notStream = (c, some (Err.valueError "Not a relation"))
    ∧ (rs.nameProp ∈ c.names →
        relationsAdd c (RelArg.stream rs)
          = (c, some (Err.valueError ("Duplicate name: " ++ rs.nameProp))))
    ∧ (rs.nameProp ∉ c.names →
        relationsAdd c (RelArg.stream rs)
          = (⟨c.names ++ [rs.nameProp], c.items ++ [rs]⟩, none)) := by
  refine ⟨rfl, ?_, ?_⟩ <;> intro h <;> simp [relationsAdd, NamedItems.add, h]

/-- Witness for C9 at concrete inputs. -/
theorem c9_witness :
    relationsAdd (⟨["A"], [streamA]⟩ : NamedItems (RecordStream (List (Option Nat))))
        (RelArg.stream streamA)
      = (⟨["A"], [streamA]⟩, some (Err.valueError "Duplicate name: A"))
    ∧ relationsAdd (⟨["A"], [streamA]⟩ : NamedItems (RecordStream (List (Option Nat))))
        (RelArg.stream streamB)
      = (⟨["A", "B"], [streamA, streamB]⟩, none) :=
  ⟨(c9_relations_add_two_failure_cases ⟨["A"], [streamA]⟩ streamA).2.1 (by decide),
   (c9_relations_add_two_failure_cases ⟨["A"], [streamA]⟩ streamB).2.2 (by decide)⟩

/-- Counterexample to claim C9 as stated: adding a `RecordStream` with
no name set to an empty `Relations` raises nothing — the stream is
registered under the placeholder name. -/
theorem c9_counterexample_nameless_stream_added :
    relationsAdd (NamedItems.empty : NamedItems (RecordStream Nat))
        (RelArg.stream ⟨none, none, []⟩)
      = (⟨["<unknown>"], [⟨none, none, []⟩]⟩, none) := rfl

/-- Claim C10: a `CollectedRecords` built over distinct registered
relation names contains, immediately after construction, exactly one
entry per name in registration order, each an empty list; `NamedItems.add`
with an already-present name raises `ValueError` leaving names and items
unchanged; hence a later `add` to the `CollectedRecords` under any
registered relation name raises. -/
theorem c10_collected_records_prepopulated {K ρ : Type} (k : Option K)
    (names : List String) (hnd : names.Nodup) :
    @initCollected K ρ k names
      = (⟨k, ⟨names, names.map (fun _ => [])⟩⟩, none)
    ∧ (∀ (c : NamedItems (List ρ)) (n : String) (x : List ρ), n ∈ c.names →
        c.add n x = (c, some (Err.valueError ("Duplicate name: " ++ n))))
    ∧ (∀ (n : String) (x : List ρ), n ∈ names →
        (@initCollected K ρ k names).1.recs.add n x
          = ((@initCollected K ρ k names).1.recs,
             some (Err.valueError ("Duplicate name: " ++ n)))) := by
  have hinit : @initCollected K ρ k names
      = (⟨k, ⟨names, names.map (fun _ => [])⟩⟩, none) := by
    rw [initCollected,
      addEmpties_ok names NamedItems.empty (by simp [NamedItems.empty]) hnd]
    simp [NamedItems.empty]
  refine ⟨hinit, ?_, ?_⟩
  · intro c n x hmem
    simp [NamedItems.add, hmem]
  · intro n x hmem
    rw [hinit]
    simp [NamedItems.add, hmem]

/-- Witness for C10 at a concrete input: two registered names, then a
duplicate add. -/
theorem c10_witness :
    @initCollected Nat Nat (some 1) ["ints", "strs"]
      = (⟨some 1, ⟨["ints", "strs"], [[], []]⟩⟩, none)
    ∧ (@initCollected Nat Nat (some 1) ["ints", "strs"]).1.recs.add "ints" [5]
      = ((@initCollected Nat Nat (some 1) ["ints", "strs"]).1.recs,
         some (Err.valueError "Duplicate name: ints")) :=
  ⟨(c10_collected_records_prepopulated (some 1) ["ints", "strs"] (by decide)).1,
   (c10_collected_records_prepopulated (some 1) ["ints", "strs"] (by decide)).2.2
     "ints" [5] (by decide)⟩

theorem list_isEmpty_congr {α β : Type} {l1 : List α} {l2 : List β}
    (h : l1 = [] ↔ l2 = []) : l1.isEmpty = l2.isEmpty := by
  cases l1 <;> cases l2 <;> simp_all

/-- Claim C5: rows whose key is null contribute to no output group:
for any two inputs that register the same relation names and whose
relations agree on their non-null-keyed rows in order (so they differ
only by adding or removing null-keyed rows — at the start, at the end,
or in consecutive runs anywhere), iterating `MergeCollect` produces the
identical outcome (the same yielded `CollectedRecords` sequence and the
same termination behavior). -/
theorem c5_null_keyed_rows_do_not_change_output {K ρ : Type} [LinearOrder K]
    (key : ρ → Option K) (rels rels2 : List (String × List ρ))
    (hrel : List.Forall₂ (fun p q => p.1 = q.1 ∧
      p.2.filter (fun r => (key r).isSome) = q.2.filter (fun r => (key r).isSome))
      rels rels2) :
    mergeCollectRows key rels = mergeCollectRows key rels2 := by
  rw [mergeCollectRows, mergeCollectRows, mergeCollect, mergeCollect,
    List.map_map, List.map_map]
  apply mcLoop_congr
  · rw [List.map_map, List.map_map]
    exact forall2_map_eq hrel (fun a b hab => hab.1)
  · rw [List.map_map, List.map_map]
    apply forall2_map_eq hrel
    intro a b hab
    show headKey (skipNone (pygroupby key a.2)) = headKey (skipNone (pygroupby key b.2))
    rw [skipNone_pygroupby_headKey, skipNone_pygroupby_headKey]
    unfold firstSomeKey
    rw [hab.2]
  · rw [List.map_map, List.map_map]
    apply forall2_map_eq hrel
    intro a b hab
    show (skipNone (pygroupby key a.2)).isEmpty = (skipNone (pygroupby key b.2)).isEmpty
    apply list_isEmpty_congr
    rw [skipNone_pygroupby_eq_nil_iff, skipNone_pygroupby_eq_nil_iff, hab.2]

/-- Witness for C5 at a concrete input: surrounding the single keyed row
with null-keyed rows on both sides leaves the outcome identical. -/
theorem c5_witness :
    mergeCollectRows (fun r => cell r 0)
        [("A", ([[some 1, some 10]] : List (List (Option Nat))))]
      = mergeCollectRows (fun r => cell r 0)
        [("A", [[none, none], [some 1, some 10], [none, none]])] :=
  c5_null_keyed_rows_do_not_change_output (fun r => cell r 0) _ _
    (List.Forall₂.cons ⟨rfl, by decide⟩ List.Forall₂.nil)

/-- The duplicate-name defect in full generality: for every
post-construction state, iterating `merge_collect` either terminates
immediately with no output (all cursors exhausted or null-keyed) or
raises an exception while building the very first group — it never
yields a single `CollectedRecords`, and the `Stop.diverges` outcome is
unreachable. -/
theorem mergeCollect_never_yields {K ρ : Type} [LinearOrder K] (st : MCSt K ρ) :
    mergeCollect st = ([], none)
    ∨ ∃ e, mergeCollect st = ([], some (Stop.raised e)) := by
  rw [mergeCollect]
  by_cases hA : (st.map (fun p => (p.1, skipNone p.2))).all
      (fun p => p.2.isEmpty) = true
  · exact Or.inl (mcLoop_all_empty _ hA)
  · right
    have hAf : (st.map (fun p => (p.1, skipNone p.2))).all
        (fun p => p.2.isEmpty) = false := by
      cases hx : (st.map (fun p => (p.1, skipNone p.2))).all
          (fun p => p.2.isEmpty) with
      | true => exact absurd hx hA
      | false => rfl
    have hex : ∃ v ∈ (st.map (fun p => (p.1, skipNone p.2))).map
        (fun p => headKey p.2), v.isSome := by
      have h1 : ¬ ∀ p ∈ st.map (fun p => (p.1, skipNone p.2)),
          (p.2.isEmpty = true) := by
        intro hcon
        exact hA (List.all_eq_true.mpr hcon)
      push_neg at h1
      obtain ⟨p, hp, hpe⟩ := h1
      have hpne : p.2 ≠ [] := by
        intro hnil
        exact hpe (by rw [hnil]; rfl)
      obtain ⟨q, hq, hqp⟩ := List.mem_map.mp hp
      have hhk : (headKey p.2).isSome := by
        rw [← hqp] at hpne ⊢
        exact headKey_skipNone_isSome q.2 hpne
      exact ⟨headKey p.2, List.mem_map.mpr ⟨p, hp, rfl⟩, hhk⟩
    have hne := indicesOfMinimums_ne_nil _ hex
    cases hidx : (indicesOfMinimums ((st.map (fun p => (p.1, skipNone p.2))).map
        (fun p => headKey p.2))).2 with
    | nil => exact absurd hidx hne
    | cons i rest =>
        have hsome := buildGroup_cons_snd_isSome
          (st.map (fun p => (p.1, skipNone p.2)))
          (indicesOfMinimums ((st.map (fun p => (p.1, skipNone p.2))).map
            (fun p => headKey p.2))).1 i rest
        cases hbg : (buildGroup (st.map (fun p => (p.1, skipNone p.2)))
            (indicesOfMinimums ((st.map (fun p => (p.1, skipNone p.2))).map
              (fun p => headKey p.2))).1 (i :: rest)).2 with
        | none => rw [hbg] at hsome; simp at hsome
        | some e =>
            refine ⟨e, mcLoop_raises _ e hAf ?_⟩
            rw [hidx]
            exact hbg
